import Mathlib

/-!
Shallow embedding of the NitroCore live-link protocol engine:
the websocket handler `src/server/routes/api/live.ws.ts`, the envelope
codec `src/server/utils/useLiveLinkCrypto.ts`, the keyring builder
(`useLiveLinkKeys`) and the session store (`useLiveLinkSessions`).

Numbers carried by JSON messages are modelled as rationals (every value
produced by `JSON.parse` is a finite IEEE double, hence a rational);
timestamps (`Date.now()`) are rationals as well.  AES primitives,
base64 decoding and the random nonce are external to the repository and
are passed in as explicit function parameters.
-/

namespace LiveLink

/-- Model of a JavaScript value produced by `JSON.parse`: null, booleans,
(finite) numbers, strings, arrays and objects.  Object fields are kept in
insertion order; `JSON.parse` never produces duplicate keys. -/
inductive Json where
  | null : Json
  | bool (b : Bool) : Json
  | num (q : ℚ) : Json
  | str (s : String) : Json
  | arr (elems : List Json) : Json
  | obj (fields : List (String × Json)) : Json

namespace Json

/-- Property lookup `(v as any).k` on a JSON value: only objects expose
fields; everything else (including arrays, whose elements are indexed
numerically) yields `undefined`, modelled as `none`. -/
def getField : Json → String → Option Json
  | obj fields, k => fields.lookup k
  | _, _ => none

/-- JavaScript truthiness of a JSON value (`!v` is its negation). -/
def truthy : Json → Bool
  | null => false
  | bool b => b
  | num q => q ≠ 0
  | str s => s ≠ ""
  | arr _ => true
  | obj _ => true

/-- Model of `typeof v === "object"` for a JSON value: true for null, arrays and
objects. -/
def typeofObject : Json → Bool
  | null => true
  | arr _ => true
  | obj _ => true
  | _ => false

end Json

/-- Shape of `LIVE_LINK_CONFIG` (live.ws.ts lines 36-44): every field is read
with `readNumberEnv`, i.e. is an arbitrary finite number, with the defaults
below. -/
structure LiveLinkConfig where
  handshakeTimeoutMs : ℚ
  maxMessageBytes : ℚ
  maxFramesPerChunk : ℚ
  maxPctPerSecond : ℚ
  maxPctBurst : ℚ
  maxAbsCoord : ℚ
  maxCoordDelta : ℚ
deriving DecidableEq, Repr

/-- The default configuration: `LIVE_LINK_CONFIG` with no environment
overrides set. -/
def LIVE_LINK_CONFIG : LiveLinkConfig :=
  { handshakeTimeoutMs := 5000
    maxMessageBytes := 262144  -- 256 * 1024
    maxFramesPerChunk := 600
    maxPctPerSecond := 20
    maxPctBurst := 5
    maxAbsCoord := 10000000
    maxCoordDelta := 20000 }

/-- State `session.telemetry` (useLiveLinkSessions, LiveLinkSession.telemetry). -/
structure TelemetryState where
  expectedSeq : ℕ
  lastAt : Option ℚ
  lastPct : Option ℚ
  lastCoord : Option (ℚ × ℚ)
deriving DecidableEq, Repr

/-- A message that passed `TelemetrySchema.parse`: `seq` a non-negative
integer, `current_pct` a finite number, `frames` an array of arbitrary
JSON values (extra fields are passed through and ignored). -/
structure TelemetryMessage where
  seq : ℕ
  current_pct : ℚ
  frames : List Json

/-- One iteration of the per-frame plausibility loop (live.ws.ts lines
255-294) acting on the running coordinate baseline: returns the updated
baseline and, when a check fails, the kill reason. -/
def stepFrame (cfg : LiveLinkConfig) (lastCoord : Option (ℚ × ℚ)) (frame : Json) :
    Option (ℚ × ℚ) × Option String :=
  if ¬ frame.truthy ∨ ¬ frame.typeofObject then (lastCoord, none)
  else
    match frame.getField "x", frame.getField "y" with
    | none, _ => (lastCoord, none)
    | some _, none => (lastCoord, none)
    | some xv, some yv =>
      match xv, yv with
      | Json.num x, Json.num y =>
        -- `Number.isFinite` always holds for a JSON-parsed number.
        if |x| > cfg.maxAbsCoord ∨ |y| > cfg.maxAbsCoord then
          (lastCoord, some "Impossible coordinates")
        else
          match lastCoord with
          | some lc =>
            if |x - lc.1| > cfg.maxCoordDelta ∨ |y - lc.2| > cfg.maxCoordDelta then
              (lastCoord, some "Impossible movement")
            else (some (x, y), none)
          | none => (some (x, y), none)
      | _, _ => (lastCoord, some "Invalid coordinates")

/-- The per-frame plausibility loop: frames in order, the coordinate
baseline threaded frame-to-frame, aborting at the first kill. -/
def processFrames (cfg : LiveLinkConfig) (lastCoord : Option (ℚ × ℚ)) :
    List Json → Option (ℚ × ℚ) × Option String
  | [] => (lastCoord, none)
  | f :: rest =>
    match stepFrame cfg lastCoord f with
    | (c, some reason) => (c, some reason)
    | (c, none) => processFrames cfg c rest

/-- The progress-rate check (live.ws.ts lines 228-245), given that both
`lastAt` and `lastPct` baselines exist: returns the kill reason if the
message violates the time-delta or rate limit. -/
def rateCheck (cfg : LiveLinkConfig) (lastAt lastPct now pct : ℚ) : Option String :=
  -- dtSec := (now - lastAt) / 1000, deltaPct := pct - lastPct
  if (now - lastAt) / 1000 ≤ 0 then some "Invalid time delta"
  else
    if pct - lastPct ≥ 0 then
      if pct - lastPct > cfg.maxPctBurst + cfg.maxPctPerSecond * ((now - lastAt) / 1000) then
        some "Speedhack (pct jump)"
      else none
    else none

/-- Continuation of the telemetry branch after the sequence and rate checks
passed (live.ws.ts lines 247-294): write the `(time, pct)` baseline, then
the batch-size check, then the per-frame loop. -/
def afterRateCheck (cfg : LiveLinkConfig) (st : TelemetryState) (now : ℚ)
    (msg : TelemetryMessage) : TelemetryState × Option String :=
  let st1 := { st with lastAt := some now, lastPct := some msg.current_pct }
  if (msg.frames.length : ℚ) > cfg.maxFramesPerChunk then
    (st1, some "Too many frames")
  else
    let r := processFrames cfg st1.lastCoord msg.frames
    ({ st1 with lastCoord := r.1 }, r.2)

/-- The telemetry branch of the `message` handler (live.ws.ts lines
217-294) on a message that passed `TelemetrySchema.parse`: sequence check,
`expectedSeq` increment, progress-rate check, baseline write, batch-size
check and the per-frame loop.  Returns the updated telemetry state and the
kill reason, if any. -/
def processTelemetry (cfg : LiveLinkConfig) (st : TelemetryState) (now : ℚ)
    (msg : TelemetryMessage) : TelemetryState × Option String :=
  if msg.seq ≠ st.expectedSeq then (st, some "Sequence mismatch")
  else
    let st1 := { st with expectedSeq := st.expectedSeq + 1 }
    match st.lastAt, st.lastPct with
    | some lastAt, some lastPct =>
      match rateCheck cfg lastAt lastPct now msg.current_pct with
      | some reason => (st1, some reason)
      | none => afterRateCheck cfg st1 now msg
    | _, _ => afterRateCheck cfg st1 now msg

/-! ### Byte-level string comparison (`timingSafeEqualString`)

`Buffer.from(s)` encodes a string as UTF-8; `timingSafeEqual` on two
equal-length buffers is byte equality.  We model the UTF-8 encoder
explicitly (on the character's scalar value). -/

/-- UTF-8 encoding of one Unicode scalar value. -/
def utf8EncodeChar (n : ℕ) : List ℕ :=
  if n < 0x80 then [n]
  else if n < 0x800 then [0xC0 + n / 64, 0x80 + n % 64]
  else if n < 0x10000 then [0xE0 + n / 4096, 0x80 + n / 64 % 64, 0x80 + n % 64]
  else [0xF0 + n / 262144, 0x80 + n / 4096 % 64, 0x80 + n / 64 % 64, 0x80 + n % 64]

/-- UTF-8 encoding of a character sequence. -/
def utf8Encode (cs : List Char) : List ℕ :=
  cs.foldr (fun c acc => utf8EncodeChar c.toNat ++ acc) []

/-- The bytes of `Buffer.from(s)` for a string `s`. -/
def utf8Bytes (s : String) : List ℕ := utf8Encode s.data

/-- Function `timingSafeEqualString` (live.ws.ts lines 73-80): compare the UTF-8
byte lengths, then the bytes (`timingSafeEqual` is byte equality on
equal-length buffers). -/
def timingSafeEqualString (a b : String) : Bool :=
  if (utf8Bytes a).length ≠ (utf8Bytes b).length then false
  else decide (utf8Bytes a = utf8Bytes b)

/-! ### Envelope codec (`useLiveLinkCrypto.ts`) -/

/-- The parsed `AuthEnvelopeSchema` result: `iv` required non-empty,
`data`/`ciphertext`/`tag` optional non-empty strings, `alg` an optional
string; extra fields are passed through and ignored. -/
structure LiveLinkAuthEnvelope where
  iv : String
  data : Option String
  ciphertext : Option String
  tag : Option String
  alg : Option String
deriving DecidableEq, Repr

/-- The parsed `LiveLinkAuthPayloadSchema` result: a non-empty `nonce`
string; extra fields are passed through and ignored. -/
structure LiveLinkAuthPayload where
  nonce : String
deriving DecidableEq, Repr

/-- Zod `z.string().min(1)` on a required field: present, a string, and
non-empty. -/
def reqNonemptyStr (fields : List (String × Json)) (k : String) : Option String :=
  match fields.lookup k with
  | some (Json.str s) => if s = "" then none else some s
  | _ => none

/-- Zod `z.string().min(1).optional()`: absent is fine; when present it
must be a non-empty string (`null` is not accepted by `.optional()`). -/
def optNonemptyStr (fields : List (String × Json)) (k : String) : Option (Option String) :=
  match fields.lookup k with
  | none => some none
  | some (Json.str s) => if s = "" then none else some (some s)
  | some _ => none

/-- Zod `z.string().optional()`: absent is fine; when present it must be a
string. -/
def optStr (fields : List (String × Json)) (k : String) : Option (Option String) :=
  match fields.lookup k with
  | none => some none
  | some (Json.str s) => some (some s)
  | some _ => none

/-- Function `parseAuthEnvelope` (useLiveLinkCrypto.ts line 39): structural
validation by `AuthEnvelopeSchema.parse`; `none` models the thrown
`ZodError`. -/
def parseAuthEnvelope (j : Json) : Option LiveLinkAuthEnvelope :=
  match j with
  | Json.obj fields =>
    (reqNonemptyStr fields "iv").bind fun iv =>
    (optNonemptyStr fields "data").bind fun data =>
    (optNonemptyStr fields "ciphertext").bind fun ciphertext =>
    (optNonemptyStr fields "tag").bind fun tag =>
    (optStr fields "alg").map fun alg =>
    { iv := iv, data := data, ciphertext := ciphertext, tag := tag, alg := alg }
  | _ => none

/-- External base64 decoders (`Buffer.from(s, "base64")` and
`Buffer.from(s, "base64url")`), passed in as parameters. -/
structure Base64Decoders where
  base64 : String → List ℕ
  base64url : String → List ℕ

/-- Function `decodeBase64Like`: trim, then pick URL-safe base64 exactly when the
string contains `-` or `_` and contains neither `+` nor `/`. -/
def decodeBase64Like (dec : Base64Decoders) (value : String) : List ℕ :=
  let trimmed := value.trim
  let isBase64Url :=
    (trimmed.data.any fun c => c = '-' ∨ c = '_') &&
    ! (trimmed.data.any fun c => c = '+' ∨ c = '/')
  if isBase64Url then dec.base64url trimmed else dec.base64 trimmed

/-- The distinguishable failure kinds thrown by `decryptAuthEnvelope`;
all cryptographic failures collapse into `cipherFailure`. -/
inductive DecryptError where
  | missingCiphertext
  | invalidTagLength
  | invalidGcmIvLength
  | invalidCbcIvLength
  | cipherFailure
deriving DecidableEq, Repr

/-- External AES primitives (`node:crypto`), passed in as parameters;
`none` models a thrown error (bad auth tag, bad padding). -/
structure CipherPrimitives where
  gcmDecrypt : List ℕ → List ℕ → List ℕ → List ℕ → Option (List ℕ)
  cbcDecrypt : List ℕ → List ℕ → List ℕ → Option (List ℕ)
  bytesToUtf8 : List ℕ → String

/-- Does a character list contain `gcm` as a contiguous substring? -/
def containsGcm : List Char → Bool
  | 'g' :: 'c' :: 'm' :: _ => true
  | _ :: rest => containsGcm rest
  | [] => false

/-- Model of `alg.toLowerCase().includes("gcm")`. -/
def algContainsGcm (s : String) : Bool := containsGcm s.toLower.data

/-- Function `decryptAuthEnvelope` (useLiveLinkCrypto.ts lines 41-69): choose the
ciphertext field (`data ?? ciphertext`, then a falsiness check), decode
`iv`/ciphertext, select GCM when a (truthy) `tag` is present or `alg`
mentions gcm, enforce tag/IV length invariants, and decrypt. -/
def decryptAuthEnvelope (dec : Base64Decoders) (prim : CipherPrimitives)
    (envelope : LiveLinkAuthEnvelope) (key : List ℕ) : Except DecryptError String :=
  let ciphertextBase64 := match envelope.data with
    | some d => some d
    | none => envelope.ciphertext
  match ciphertextBase64 with
  | none => Except.error DecryptError.missingCiphertext
  | some ctStr =>
    if ctStr = "" then Except.error DecryptError.missingCiphertext
    else
      let iv := decodeBase64Like dec envelope.iv
      let ciphertext := decodeBase64Like dec ctStr
      let alg := (envelope.alg.getD "")
      let wantsGcm := (match envelope.tag with
        | some t => t ≠ ""
        | none => false) || algContainsGcm alg
      if wantsGcm then
        let tag := match envelope.tag with
          | some t => if t = "" then [] else decodeBase64Like dec t
          | none => []
        if tag.length ≠ 16 then Except.error DecryptError.invalidTagLength
        else if iv.length < 12 ∨ iv.length > 32 then Except.error DecryptError.invalidGcmIvLength
        else match prim.gcmDecrypt key iv ciphertext tag with
          | some pt => Except.ok (prim.bytesToUtf8 pt)
          | none => Except.error DecryptError.cipherFailure
      else
        if iv.length ≠ 16 then Except.error DecryptError.invalidCbcIvLength
        else match prim.cbcDecrypt key iv ciphertext with
          | some pt => Except.ok (prim.bytesToUtf8 pt)
          | none => Except.error DecryptError.cipherFailure

/-! ### Handshake controller and message handler (`live.ws.ts`) -/

/-- A keyring entry: a version label and a 32-byte key. -/
structure LiveLinkKeyringEntry where
  version : String
  key : List ℕ
deriving DecidableEq, Repr

/-- Auth state machine tag (`session.auth.state`). -/
inductive AuthStateTag where
  | challenging
  | authorized
deriving DecidableEq, Repr

/-- State `session.auth`. -/
structure AuthState where
  state : AuthStateTag
  nonce : String
  version : Option String
  handshakeTimer : Bool
deriving DecidableEq, Repr

/-- The full per-connection session (`LiveLinkSession` in
`useLiveLinkSessions`). -/
structure LiveLinkSession where
  id : String
  createdAt : ℚ
  auth : AuthState
  telemetry : TelemetryState
deriving DecidableEq, Repr

/-- Server→client messages. -/
inductive OutMsg where
  | authChallenge (nonce : String)
  | authOk (version : String)
  | pong (t : ℚ)
  | kill
deriving DecidableEq, Repr

/-- Transport effects of a handler run. -/
inductive OutAction where
  | send (msg : OutMsg)
  | close (code : ℕ) (reason : String)
deriving DecidableEq, Repr

/-- Helper `closeUnauthorized`: close with policy-violation code 1008. -/
def closeUnauthorized (reason : String) : List OutAction :=
  [OutAction.close 1008 reason]

/-- Helper `killAndClose`: send the kill notification, then close with code 1008. -/
def killAndClose (reason : String) : List OutAction :=
  [OutAction.send OutMsg.kill, OutAction.close 1008 reason]

/-- Result of the key-trial loop (live.ws.ts lines 166-184). -/
inductive KeyTrialResult where
  | noMatch
  | nonceMismatch
  | matched (version : String) (payload : LiveLinkAuthPayload)

/-- The key-trial loop: try each keyring entry in order; a decrypt/parse
failure moves on to the next key; a successful decrypt whose nonce fails
the constant-time comparison aborts the whole loop (`nonceMismatch`); a
successful decrypt with a matching nonce breaks out with the entry's
version.  `decryptParse` abstracts
`LiveLinkAuthPayloadSchema.parse(JSON.parse(crypto.decryptAuthEnvelope(envelope, key)))`,
with `none` for any thrown error. -/
def keyTrial (decryptParse : LiveLinkAuthEnvelope → List ℕ → Option LiveLinkAuthPayload)
    (envelope : LiveLinkAuthEnvelope) (nonce : String) :
    List LiveLinkKeyringEntry → KeyTrialResult
  | [] => KeyTrialResult.noMatch
  | e :: rest =>
    match decryptParse envelope e.key with
    | none => keyTrial decryptParse envelope nonce rest
    | some payload =>
      if timingSafeEqualString payload.nonce nonce then
        KeyTrialResult.matched e.version payload
      else KeyTrialResult.nonceMismatch

/-- Model of `data && typeof data === "object" && data.cmd === "ping"`. -/
def isPing (j : Json) : Bool :=
  j.truthy && j.typeofObject &&
    (match j.getField "cmd" with
     | some (Json.str s) => s = "ping"
     | _ => false)

/-- The envelope candidate: the `payload` sub-object when the message is
an object carrying one, the message itself otherwise. -/
def envelopeCandidate (j : Json) : Json :=
  match j with
  | Json.obj fields =>
    match fields.lookup "payload" with
    | some p => p
    | none => j
  | _ => j

/-- Parser `TelemetrySchema.parse` (live.ws.ts lines 64-69): optional literal
`cmd: "telemetry"`, a non-negative integer `seq`, a finite number
`current_pct`, an array `frames`; extra fields are passed through. -/
def telemetryParse (j : Json) : Option TelemetryMessage :=
  match j with
  | Json.obj fields =>
    (match fields.lookup "cmd" with
     | none => some ()
     | some (Json.str s) => if s = "telemetry" then some () else none
     | some _ => none).bind fun _ =>
    (match fields.lookup "seq" with
     | some (Json.num q) => if q.den = 1 ∧ 0 ≤ q then some q.num.toNat else none
     | _ => none).bind fun seq =>
    (match fields.lookup "current_pct" with
     | some (Json.num q) => some q
     | _ => none).bind fun pct =>
    (match fields.lookup "frames" with
     | some (Json.arr xs) => some xs
     | _ => none).bind fun frames =>
    some { seq := seq, current_pct := pct, frames := frames }
  | _ => none

/-- The `message` handler (live.ws.ts lines 122-295) for a connection
whose session exists in the store: size limit, JSON parse (`none` models
invalid JSON), ping short-circuit, then the handshake branch while not
authorized, the telemetry branch otherwise.  Returns the updated session
and the transport effects. -/
def handleMessage (decryptParse : LiveLinkAuthEnvelope → List ℕ → Option LiveLinkAuthPayload)
    (cfg : LiveLinkConfig) (keyring : List LiveLinkKeyringEntry)
    (session : LiveLinkSession) (size : ℕ) (data : Option Json) (now : ℚ) :
    LiveLinkSession × List OutAction :=
  if (size : ℚ) > cfg.maxMessageBytes then (session, killAndClose "Message too large")
  else
    match data with
    | none => (session, killAndClose "Invalid JSON")
    | some d =>
      if isPing d then (session, [OutAction.send (OutMsg.pong now)])
      else if session.auth.state ≠ AuthStateTag.authorized then
        match parseAuthEnvelope (envelopeCandidate d) with
        | none => (session, closeUnauthorized "Bad auth envelope")
        | some envelope =>
          match keyTrial decryptParse envelope session.auth.nonce keyring with
          | KeyTrialResult.nonceMismatch => (session, closeUnauthorized "Nonce mismatch")
          | KeyTrialResult.noMatch => (session, closeUnauthorized "Unauthorized")
          | KeyTrialResult.matched version _ =>
            -- `if (!authedVersion || !authPayload)`: the empty version
            -- string is falsy, so it is refused as "Unauthorized".
            if version = "" then (session, closeUnauthorized "Unauthorized")
            else
              ({ session with auth := { session.auth with
                    state := AuthStateTag.authorized
                    version := some version
                    handshakeTimer := false } },
               [OutAction.send (OutMsg.authOk version)])
      else
        match telemetryParse d with
        | none => (session, killAndClose "Bad telemetry")
        | some msg =>
          let r := processTelemetry cfg session.telemetry now msg
          ({ session with telemetry := r.1 },
           match r.2 with
           | some reason => killAndClose reason
           | none => [])

/-! ### Session store, open and close handlers -/

/-- The global session store (`useLiveLinkSessions`): a JS `Map` keyed by
peer id, modelled as an insertion-ordered association list with unique
keys. -/
abbrev SessionStore := List (String × LiveLinkSession)

/-- JS `Map.set`: replace in place on an existing key, append otherwise. -/
def mapSet {α : Type} : List (String × α) → String → α → List (String × α)
  | [], k, v => [(k, v)]
  | (k', v') :: rest, k, v =>
    if k' = k then (k, v) :: rest else (k', v') :: mapSet rest k v

/-- JS `Map.delete`: remove the entry with the given key, if present. -/
def mapDelete {α : Type} : List (String × α) → String → List (String × α)
  | [], _ => []
  | (k', v') :: rest, k =>
    if k' = k then rest else (k', v') :: mapDelete rest k

/-- The `open` handler (live.ws.ts lines 83-120): build the session with a
fresh nonce (passed in, `randomBytes` being external), an armed handshake
timer and `expectedSeq = 1`; insert it into the store; then refuse the
connection when the keyring is empty, and send the challenge otherwise. -/
def openHandler (keyring : List LiveLinkKeyringEntry) (store : SessionStore)
    (peerId : String) (nonce : String) (now : ℚ) : SessionStore × List OutAction :=
  let session : LiveLinkSession :=
    { id := peerId
      createdAt := now
      auth := { state := AuthStateTag.challenging, nonce := nonce,
                version := none, handshakeTimer := true }
      telemetry := { expectedSeq := 1, lastAt := none, lastPct := none, lastCoord := none } }
  let store := mapSet store peerId session
  if keyring.length = 0 then (store, closeUnauthorized "Server misconfigured")
  else (store, [OutAction.send (OutMsg.authChallenge nonce)])

/-- The `close` handler (live.ws.ts lines 297-309): when the session
exists, clear its timer and delete it from the store. -/
def closeHandler (store : SessionStore) (peerId : String) : SessionStore :=
  match store.lookup peerId with
  | none => store
  | some _ => mapDelete store peerId

/-! ### Keyring builder (`useLiveLinkKeys`) -/

/-- Test of the regex character class of `isHexSha256` on one character. -/
def isHexDigit (c : Char) : Bool :=
  ('0' ≤ c && c ≤ '9') || ('a' ≤ c && c ≤ 'f') || ('A' ≤ c && c ≤ 'F')

/-- Predicate `isHexSha256`: a 64-character case-insensitive hex string. -/
def isHexSha256 (s : String) : Bool :=
  s.length = 64 && s.data.all isHexDigit

/-- Value of one hex digit. -/
def hexVal (c : Char) : ℕ :=
  if c ≤ '9' then c.toNat - '0'.toNat
  else if c ≤ 'F' then c.toNat - 'A'.toNat + 10
  else c.toNat - 'a'.toNat + 10

/-- Model of `Buffer.from(value, "hex")`: consecutive digit pairs become bytes. -/
def hexDecode : List Char → List ℕ
  | c1 :: c2 :: rest => (hexVal c1 * 16 + hexVal c2) :: hexDecode rest
  | _ => []

/-- Function `parseKey` (useLiveLinkKeys): hex-decode a 64-char hex string,
otherwise base64-decode and require exactly 32 bytes; `none` models the
thrown length error. -/
def parseKey (dec : Base64Decoders) (value : String) : Option (List ℕ) :=
  -- decoded := decodeBase64Like dec value
  if isHexSha256 value then some (hexDecode value.data)
  else if (decodeBase64Like dec value).length ≠ 32 then none
  else some (decodeBase64Like dec value)

/-- The static `LIVE_LINK_HASH_KEYS` map: empty in the source. -/
def LIVE_LINK_HASH_KEYS : List (String × String) := []

/-- The merge step of `buildKeyring`: start from the static map and
`Map.set` every environment entry into it (replace-in-place on a version
collision, append otherwise). -/
def mergeHashKeys (staticKeys envKeys : List (String × String)) : List (String × String) :=
  envKeys.foldl (fun m p => mapSet m p.1 p.2) staticKeys

/-- The per-entry body of the `buildKeyring` loop: parse the key, check
the 32-byte invariant again, and drop the entry (with a logged warning)
when either step throws. -/
def keyringEntryOf (dec : Base64Decoders) (p : String × String) :
    Option LiveLinkKeyringEntry :=
  match parseKey dec p.2 with
  | none => none
  | some parsedKey =>
    if parsedKey.length ≠ 32 then none else some { version := p.1, key := parsedKey }

/-- Function `buildKeyring` (useLiveLinkKeys lines 61-81): merge the static map
with the environment map (environment wins on a version collision, order
preserved), then keep, in order, the entries whose key parses to exactly
32 bytes; a failing entry is logged and skipped. -/
def buildKeyring (dec : Base64Decoders) (staticKeys envKeys : List (String × String)) :
    List LiveLinkKeyringEntry :=
  (mergeHashKeys staticKeys envKeys).filterMap (keyringEntryOf dec)

/-! ### Injectivity of the UTF-8 encoding -/

/-- Two-byte tail decoder (proof device). -/
def utf8DecodeTail2 (b : ℕ) : List ℕ → Option (ℕ × List ℕ)
  | b2 :: r => some ((b - 0xC0) * 64 + (b2 - 0x80), r)
  | _ => none

/-- Three-byte tail decoder (proof device). -/
def utf8DecodeTail3 (b : ℕ) : List ℕ → Option (ℕ × List ℕ)
  | b2 :: b3 :: r => some ((b - 0xE0) * 4096 + (b2 - 0x80) * 64 + (b3 - 0x80), r)
  | _ => none

/-- Four-byte tail decoder (proof device). -/
def utf8DecodeTail4 (b : ℕ) : List ℕ → Option (ℕ × List ℕ)
  | b2 :: b3 :: b4 :: r =>
    some ((b - 0xF0) * 262144 + (b2 - 0x80) * 4096 + (b3 - 0x80) * 64 + (b4 - 0x80), r)
  | _ => none

/-- Decoding device used only to prove the encoder injective. -/
def utf8DecodeOne : List ℕ → Option (ℕ × List ℕ)
  | [] => none
  | b :: rest =>
    if b < 0xC0 then some (b, rest)
    else if b < 0xE0 then utf8DecodeTail2 b rest
    else if b < 0xF0 then utf8DecodeTail3 b rest
    else utf8DecodeTail4 b rest

lemma utf8DecodeOne_cons (b : ℕ) (rest : List ℕ) :
    utf8DecodeOne (b :: rest) =
      if b < 0xC0 then some (b, rest)
      else if b < 0xE0 then utf8DecodeTail2 b rest
      else if b < 0xF0 then utf8DecodeTail3 b rest
      else utf8DecodeTail4 b rest := rfl

lemma utf8DecodeOne_encode (n : ℕ) (rest : List ℕ) :
    utf8DecodeOne (utf8EncodeChar n ++ rest) = some (n, rest) := by
  by_cases h1 : n < 0x80
  · rw [utf8EncodeChar, if_pos h1]
    show utf8DecodeOne (n :: rest) = some (n, rest)
    rw [utf8DecodeOne_cons, if_pos (by omega)]
  · by_cases h2 : n < 0x800
    · rw [utf8EncodeChar, if_neg h1, if_pos h2]
      show utf8DecodeOne ((0xC0 + n / 64) :: (0x80 + n % 64) :: rest) = some (n, rest)
      rw [utf8DecodeOne_cons, if_neg (by omega), if_pos (by omega)]
      show some ((0xC0 + n / 64 - 0xC0) * 64 + (0x80 + n % 64 - 0x80), rest) = some (n, rest)
      have : (0xC0 + n / 64 - 0xC0) * 64 + (0x80 + n % 64 - 0x80) = n := by omega
      rw [this]
    · by_cases h3 : n < 0x10000
      · rw [utf8EncodeChar, if_neg h1, if_neg h2, if_pos h3]
        show utf8DecodeOne
            ((0xE0 + n / 4096) :: (0x80 + n / 64 % 64) :: (0x80 + n % 64) :: rest) =
          some (n, rest)
        rw [utf8DecodeOne_cons, if_neg (by omega), if_neg (by omega), if_pos (by omega)]
        show some ((0xE0 + n / 4096 - 0xE0) * 4096 + (0x80 + n / 64 % 64 - 0x80) * 64 +
          (0x80 + n % 64 - 0x80), rest) = some (n, rest)
        have : (0xE0 + n / 4096 - 0xE0) * 4096 + (0x80 + n / 64 % 64 - 0x80) * 64 +
            (0x80 + n % 64 - 0x80) = n := by omega
        rw [this]
      · rw [utf8EncodeChar, if_neg h1, if_neg h2, if_neg h3]
        show utf8DecodeOne
            ((0xF0 + n / 262144) :: (0x80 + n / 4096 % 64) :: (0x80 + n / 64 % 64) ::
              (0x80 + n % 64) :: rest) = some (n, rest)
        rw [utf8DecodeOne_cons, if_neg (by omega), if_neg (by omega), if_neg (by omega)]
        show some ((0xF0 + n / 262144 - 0xF0) * 262144 + (0x80 + n / 4096 % 64 - 0x80) * 4096 +
          (0x80 + n / 64 % 64 - 0x80) * 64 + (0x80 + n % 64 - 0x80), rest) = some (n, rest)
        have : (0xF0 + n / 262144 - 0xF0) * 262144 + (0x80 + n / 4096 % 64 - 0x80) * 4096 +
            (0x80 + n / 64 % 64 - 0x80) * 64 + (0x80 + n % 64 - 0x80) = n := by omega
        rw [this]

lemma utf8EncodeChar_ne_nil (n : ℕ) : utf8EncodeChar n ≠ [] := by
  rw [utf8EncodeChar]
  split_ifs <;> simp

lemma utf8Encode_cons (c : Char) (cs : List Char) :
    utf8Encode (c :: cs) = utf8EncodeChar c.toNat ++ utf8Encode cs := rfl

lemma utf8Encode_inj : ∀ {cs ds : List Char}, utf8Encode cs = utf8Encode ds → cs = ds := by
  intro cs
  induction cs with
  | nil =>
    intro ds h
    cases ds with
    | nil => rfl
    | cons d ds =>
      rw [utf8Encode_cons] at h
      exact absurd (List.append_eq_nil.mp h.symm).1 (utf8EncodeChar_ne_nil d.toNat)
  | cons c cs ih =>
    intro ds h
    cases ds with
    | nil =>
      rw [utf8Encode_cons] at h
      exact absurd (List.append_eq_nil.mp h).1 (utf8EncodeChar_ne_nil c.toNat)
    | cons d ds =>
      rw [utf8Encode_cons, utf8Encode_cons] at h
      have h' := congrArg utf8DecodeOne h
      rw [utf8DecodeOne_encode, utf8DecodeOne_encode] at h'
      have hn : c.toNat = d.toNat := (Prod.mk.injEq _ _ _ _ ▸ Option.some.inj h').1
      have ht : utf8Encode cs = utf8Encode ds := (Prod.mk.injEq _ _ _ _ ▸ Option.some.inj h').2
      exact congrArg₂ List.cons (Char.ext (UInt32.ext hn)) (ih ht)

/-- The source's byte-level comparison decides string equality: it returns
`true` exactly on equal strings. -/
lemma timingSafeEqualString_iff (a b : String) : timingSafeEqualString a b = true ↔ a = b := by
  unfold timingSafeEqualString
  split_ifs with h
  · simp only [Bool.false_eq_true, false_iff]
    intro heq
    exact h (heq ▸ rfl)
  · rw [decide_eq_true_eq]
    constructor
    · intro he
      exact String.ext (utf8Encode_inj he)
    · rintro rfl
      rfl

/-! ### Key-trial loop lemmas -/

lemma keyTrial_cons_none
    (dp : LiveLinkAuthEnvelope → List ℕ → Option LiveLinkAuthPayload)
    (envelope : LiveLinkAuthEnvelope) (nonce : String)
    (e : LiveLinkKeyringEntry) (rest : List LiveLinkKeyringEntry)
    (hdp : dp envelope e.key = none) :
    keyTrial dp envelope nonce (e :: rest) = keyTrial dp envelope nonce rest := by
  rw [keyTrial, hdp]

lemma keyTrial_cons_some
    (dp : LiveLinkAuthEnvelope → List ℕ → Option LiveLinkAuthPayload)
    (envelope : LiveLinkAuthEnvelope) (nonce : String)
    (e : LiveLinkKeyringEntry) (rest : List LiveLinkKeyringEntry)
    (p : LiveLinkAuthPayload) (hdp : dp envelope e.key = some p) :
    keyTrial dp envelope nonce (e :: rest) =
      if timingSafeEqualString p.nonce nonce = true then KeyTrialResult.matched e.version p
      else KeyTrialResult.nonceMismatch := by
  rw [keyTrial, hdp]

lemma keyTrial_matched_mem
    (dp : LiveLinkAuthEnvelope → List ℕ → Option LiveLinkAuthPayload)
    (envelope : LiveLinkAuthEnvelope) (nonce : String) :
    ∀ (kr : List LiveLinkKeyringEntry) (v : String) (p : LiveLinkAuthPayload),
      keyTrial dp envelope nonce kr = KeyTrialResult.matched v p →
      ∃ e ∈ kr, dp envelope e.key = some p ∧ e.version = v ∧ p.nonce = nonce := by
  intro kr
  induction kr with
  | nil =>
    intro v p h
    exact KeyTrialResult.noConfusion h
  | cons e rest ih =>
    intro v p h
    cases hdp : dp envelope e.key with
    | none =>
      rw [keyTrial_cons_none dp envelope nonce e rest hdp] at h
      obtain ⟨e', he', h1, h2, h3⟩ := ih v p h
      exact ⟨e', List.mem_cons_of_mem _ he', h1, h2, h3⟩
    | some payload =>
      rw [keyTrial_cons_some dp envelope nonce e rest payload hdp] at h
      by_cases ht : timingSafeEqualString payload.nonce nonce = true
      · rw [if_pos ht] at h
        injection h with hv hp
        subst hv
        subst hp
        exact ⟨e, List.mem_cons_self e rest, hdp, rfl, (timingSafeEqualString_iff _ _).mp ht⟩
      · rw [if_neg ht] at h
        exact KeyTrialResult.noConfusion h

lemma keyTrial_mismatch_of_earlier_failures
    (dp : LiveLinkAuthEnvelope → List ℕ → Option LiveLinkAuthPayload)
    (envelope : LiveLinkAuthEnvelope) (nonce : String)
    (pre post : List LiveLinkKeyringEntry) (e : LiveLinkKeyringEntry)
    (p : LiveLinkAuthPayload)
    (hpre : ∀ e' ∈ pre, dp envelope e'.key = none)
    (hdec : dp envelope e.key = some p)
    (hne : timingSafeEqualString p.nonce nonce = false) :
    keyTrial dp envelope nonce (pre ++ e :: post) = KeyTrialResult.nonceMismatch := by
  induction pre with
  | nil =>
    rw [List.nil_append, keyTrial_cons_some dp envelope nonce e post p hdec, hne]
    simp only [Bool.false_eq_true, if_false]
  | cons e' pre' ih =>
    rw [List.cons_append,
      keyTrial_cons_none dp envelope nonce e' (pre' ++ e :: post)
        (hpre e' (List.mem_cons_self e' pre'))]
    exact ih fun x hx => hpre x (List.mem_cons_of_mem _ hx)

/-- C1: for every inbound message processed while the session is
`Challenging`, the session transitions to `Authorized` only if some
keyring entry's key decrypts the envelope to a payload whose nonce equals
the session's stored challenge nonce; no key outside the keyring and no
payload with a differing nonce ever authorizes the session. -/
theorem authorized_requires_keyring_key_and_matching_nonce
    (decryptParse : LiveLinkAuthEnvelope → List ℕ → Option LiveLinkAuthPayload)
    (cfg : LiveLinkConfig) (keyring : List LiveLinkKeyringEntry)
    (session : LiveLinkSession) (size : ℕ) (data : Option Json) (now : ℚ)
    (hch : session.auth.state = AuthStateTag.challenging)
    (hauth : (handleMessage decryptParse cfg keyring session size data now).1.auth.state =
      AuthStateTag.authorized) :
    ∃ d envelope payload, data = some d ∧
      parseAuthEnvelope (envelopeCandidate d) = some envelope ∧
      ∃ e ∈ keyring, decryptParse envelope e.key = some payload ∧
        payload.nonce = session.auth.nonce := by
  have hne : session.auth.state ≠ AuthStateTag.authorized := by
    rw [hch]
    decide
  unfold handleMessage at hauth
  repeat' split at hauth
  all_goals try exact absurd hauth hne
  rename_i hsize dataOrig d hping xparse envelope hparse xtrial version payload htrial hver
  obtain ⟨e, he, h1, h2, h3⟩ :=
    keyTrial_matched_mem decryptParse envelope session.auth.nonce keyring version payload htrial
  exact ⟨d, envelope, payload, rfl, hparse, e, he, h1, h3⟩

/-- C5: during the handshake key-trial loop, if every key before `e`
fails to decrypt/parse and `e` decrypts the envelope to a well-formed
payload whose nonce differs from the stored nonce, the loop aborts with
the distinct "Nonce mismatch" rejection and the session stays unchanged,
regardless of the keys after `e`. -/
theorem nonce_mismatch_rejects_immediately
    (decryptParse : LiveLinkAuthEnvelope → List ℕ → Option LiveLinkAuthPayload)
    (cfg : LiveLinkConfig) (session : LiveLinkSession) (size : ℕ) (d : Json) (now : ℚ)
    (pre post : List LiveLinkKeyringEntry) (e : LiveLinkKeyringEntry)
    (envelope : LiveLinkAuthEnvelope) (payload : LiveLinkAuthPayload)
    (hsize : ¬ ((size : ℚ) > cfg.maxMessageBytes))
    (hping : isPing d = false)
    (hch : session.auth.state = AuthStateTag.challenging)
    (hparse : parseAuthEnvelope (envelopeCandidate d) = some envelope)
    (hpre : ∀ e' ∈ pre, decryptParse envelope e'.key = none)
    (hdec : decryptParse envelope e.key = some payload)
    (hne : payload.nonce ≠ session.auth.nonce) :
    handleMessage decryptParse cfg (pre ++ e :: post) session size (some d) now =
      (session, closeUnauthorized "Nonce mismatch") := by
  have hmm : timingSafeEqualString payload.nonce session.auth.nonce = false :=
    Bool.eq_false_iff.mpr fun h => hne ((timingSafeEqualString_iff _ _).mp h)
  have hstate : session.auth.state ≠ AuthStateTag.authorized := by
    rw [hch]
    decide
  unfold handleMessage
  rw [if_neg hsize]
  show (if isPing d = true then _ else _) = _
  rw [hping]
  simp only [Bool.false_eq_true, if_false]
  rw [if_pos hstate, hparse]
  show (match keyTrial decryptParse envelope session.auth.nonce (pre ++ e :: post) with
    | KeyTrialResult.nonceMismatch => (session, closeUnauthorized "Nonce mismatch")
    | KeyTrialResult.noMatch => (session, closeUnauthorized "Unauthorized")
    | KeyTrialResult.matched version _ =>
      if version = "" then (session, closeUnauthorized "Unauthorized")
      else ({ session with auth := { session.auth with
                state := AuthStateTag.authorized
                version := some version
                handshakeTimer := false } },
            [OutAction.send (OutMsg.authOk version)])) = _
  rw [keyTrial_mismatch_of_earlier_failures decryptParse envelope session.auth.nonce pre post e payload
    hpre hdec hmm]

/-! ### Concrete witness data -/

def witKeyA : List ℕ := List.replicate 32 1

def witKeyB : List ℕ := List.replicate 32 2

def witEntryA : LiveLinkKeyringEntry := { version := "vA", key := witKeyA }

def witEntryB : LiveLinkKeyringEntry := { version := "vB", key := witKeyB }

def witEnvelopeJson : Json :=
  Json.obj [("iv", Json.str "aXZpdml2aXZpdml2aQ"), ("data", Json.str "Y2lwaGVy")]

def witEnvelope : LiveLinkAuthEnvelope :=
  { iv := "aXZpdml2aXZpdml2aQ", data := some "Y2lwaGVy", ciphertext := none,
    tag := none, alg := none }

def witSession : LiveLinkSession :=
  { id := "peer1", createdAt := 0,
    auth := { state := AuthStateTag.challenging, nonce := "NONCE", version := none,
              handshakeTimer := true },
    telemetry := { expectedSeq := 1, lastAt := none, lastPct := none, lastCoord := none } }

/-- Oracle whose only successful decryption is under `witKeyA`, yielding
the session's nonce. -/
def witOracleMatch : LiveLinkAuthEnvelope → List ℕ → Option LiveLinkAuthPayload :=
  fun _ k => if k = witKeyA then some { nonce := "NONCE" } else none

/-- Oracle where `witKeyA` decrypts to a wrong nonce and `witKeyB` (tried
later) would decrypt to the right one. -/
def witOracleMismatch : LiveLinkAuthEnvelope → List ℕ → Option LiveLinkAuthPayload :=
  fun _ k =>
    if k = witKeyA then some { nonce := "WRONG" }
    else if k = witKeyB then some { nonce := "NONCE" } else none

/-- Witness for C1: a concrete authorized handshake, at which the theorem
produces the keyring entry and the nonce equality. -/
theorem authorized_requires_keyring_key_and_matching_nonce_witness :
    ∃ d envelope payload, (some witEnvelopeJson : Option Json) = some d ∧
      parseAuthEnvelope (envelopeCandidate d) = some envelope ∧
      ∃ e ∈ [witEntryA], witOracleMatch envelope e.key = some payload ∧
        payload.nonce = witSession.auth.nonce :=
  authorized_requires_keyring_key_and_matching_nonce witOracleMatch LIVE_LINK_CONFIG
    [witEntryA] witSession 4 (some witEnvelopeJson) 0 rfl (by decide)

/-- Witness for C5: the first key decrypts to a wrong nonce while the
second key would have matched; the connection is rejected with the
distinct "Nonce mismatch" reason and the later key is never consulted. -/
theorem nonce_mismatch_rejects_immediately_witness :
    handleMessage witOracleMismatch LIVE_LINK_CONFIG ([] ++ witEntryA :: [witEntryB])
      witSession 4 (some witEnvelopeJson) 0 = (witSession, closeUnauthorized "Nonce mismatch") :=
  nonce_mismatch_rejects_immediately witOracleMismatch LIVE_LINK_CONFIG witSession 4
    witEnvelopeJson 0 [] [witEntryB] witEntryA witEnvelope { nonce := "WRONG" }
    (by decide) rfl rfl rfl (by simp) rfl (by decide)

/-! ### Telemetry validator lemmas -/

lemma lookup_mapSet_self {α : Type} (m : List (String × α)) (k : String) (v : α) :
    (mapSet m k v).lookup k = some v := by
  induction m with
  | nil => simp [mapSet]
  | cons p rest ih =>
    by_cases h : p.1 = k
    · simp [mapSet, h]
    · simp [mapSet, h, List.lookup, beq_eq_false_iff_ne.mpr (Ne.symm h), ih]

lemma afterRateCheck_expectedSeq (cfg : LiveLinkConfig) (st : TelemetryState) (now : ℚ)
    (msg : TelemetryMessage) :
    (afterRateCheck cfg st now msg).1.expectedSeq = st.expectedSeq := by
  unfold afterRateCheck
  split <;> rfl

lemma afterRateCheck_lastAt (cfg : LiveLinkConfig) (st : TelemetryState) (now : ℚ)
    (msg : TelemetryMessage) :
    (afterRateCheck cfg st now msg).1.lastAt = some now := by
  unfold afterRateCheck
  split <;> rfl

lemma afterRateCheck_lastPct (cfg : LiveLinkConfig) (st : TelemetryState) (now : ℚ)
    (msg : TelemetryMessage) :
    (afterRateCheck cfg st now msg).1.lastPct = some msg.current_pct := by
  unfold afterRateCheck
  split <;> rfl

lemma stepFrame_kill_mem (cfg : LiveLinkConfig) (c : Option (ℚ × ℚ)) (frame : Json)
    (r : String) (h : (stepFrame cfg c frame).2 = some r) :
    r = "Invalid coordinates" ∨ r = "Impossible coordinates" ∨ r = "Impossible movement" := by
  unfold stepFrame at h
  repeat' split at h
  all_goals simp_all

lemma processFrames_kill_mem (cfg : LiveLinkConfig) :
    ∀ (fs : List Json) (c : Option (ℚ × ℚ)) (r : String),
      (processFrames cfg c fs).2 = some r →
      r = "Invalid coordinates" ∨ r = "Impossible coordinates" ∨ r = "Impossible movement" := by
  intro fs
  induction fs with
  | nil => intro c r h; exact absurd h (by simp [processFrames])
  | cons f rest ih =>
    intro c r h
    rw [processFrames] at h
    cases hsf : stepFrame cfg c f with
    | mk c' kill =>
      cases kill with
      | none => rw [hsf] at h; exact ih c' r h
      | some reason =>
        rw [hsf] at h
        have : reason = r := by simpa using h
        exact this ▸ stepFrame_kill_mem cfg c f reason (by rw [hsf])

lemma afterRateCheck_kill_mem (cfg : LiveLinkConfig) (st : TelemetryState) (now : ℚ)
    (msg : TelemetryMessage) (r : String)
    (h : (afterRateCheck cfg st now msg).2 = some r) :
    r = "Too many frames" ∨ r = "Invalid coordinates" ∨ r = "Impossible coordinates" ∨
      r = "Impossible movement" := by
  unfold afterRateCheck at h
  split at h
  · exact Or.inl (by simpa using h.symm)
  · exact Or.inr (processFrames_kill_mem cfg msg.frames _ r h)

lemma afterRateCheck_tooMany_lastCoord (cfg : LiveLinkConfig) (st : TelemetryState) (now : ℚ)
    (msg : TelemetryMessage)
    (h : (afterRateCheck cfg st now msg).2 = some "Too many frames") :
    (afterRateCheck cfg st now msg).1.lastCoord = st.lastCoord := by
  unfold afterRateCheck at h ⊢
  split at h
  · split
    · rfl
    · simp_all
  · rcases processFrames_kill_mem cfg msg.frames _ _ h with h' | h' | h' <;> simp at h'

lemma rateCheck_kill_mem (cfg : LiveLinkConfig) (a p now pct : ℚ) (r : String)
    (h : rateCheck cfg a p now pct = some r) :
    r = "Invalid time delta" ∨ r = "Speedhack (pct jump)" := by
  unfold rateCheck at h
  repeat' split at h
  all_goals simp_all

/-- C3 (amended): `expectedSeq` starts at 1 when the session is created by
`open`; it is incremented by exactly 1 exactly when the incoming telemetry
message passes the sequence check — including messages that a later check
kills — and a message failing the sequence check is rejected there and
leaves the state (hence `expectedSeq`) unchanged. -/
theorem expectedSeq_increment_characterized
    (cfg : LiveLinkConfig) (st : TelemetryState) (now : ℚ) (msg : TelemetryMessage)
    (keyring : List LiveLinkKeyringEntry) (store : SessionStore)
    (peerId nonce : String) (t : ℚ) :
    (((openHandler keyring store peerId nonce t).1.lookup peerId).map
        fun s => s.telemetry.expectedSeq) = some 1 ∧
    (msg.seq = st.expectedSeq →
      (processTelemetry cfg st now msg).1.expectedSeq = st.expectedSeq + 1) ∧
    (msg.seq ≠ st.expectedSeq →
      processTelemetry cfg st now msg = (st, some "Sequence mismatch")) := by
  refine ⟨?_, ?_, ?_⟩
  · unfold openHandler
    split
    · rw [lookup_mapSet_self]
      rfl
    · rw [lookup_mapSet_self]
      rfl
  · intro hseq
    unfold processTelemetry
    rw [if_neg (not_not_intro hseq)]
    cases hA : st.lastAt with
    | none =>
      dsimp only
      rw [afterRateCheck_expectedSeq]
    | some a =>
      cases hP : st.lastPct with
      | none =>
        dsimp only
        rw [afterRateCheck_expectedSeq]
      | some p =>
        dsimp only
        cases hrc : rateCheck cfg a p now msg.current_pct with
        | none =>
          dsimp only
          rw [afterRateCheck_expectedSeq]
        | some reason =>
          rfl
  · intro hseq
    unfold processTelemetry
    rw [if_pos hseq]

/-- Witness for C3's amended theorem: a message with the expected `seq`
increments `expectedSeq` from 1 to 2; one with a wrong `seq` is rejected
with the state unchanged. -/
theorem expectedSeq_increment_characterized_witness :
    (processTelemetry LIVE_LINK_CONFIG ⟨1, none, none, none⟩ 0 ⟨1, 50, []⟩).1.expectedSeq =
        1 + 1 ∧
      processTelemetry LIVE_LINK_CONFIG ⟨1, none, none, none⟩ 0 ⟨2, 50, []⟩ =
        (⟨1, none, none, none⟩, some "Sequence mismatch") :=
  ⟨(expectedSeq_increment_characterized LIVE_LINK_CONFIG ⟨1, none, none, none⟩ 0 ⟨1, 50, []⟩
      [] [] "p" "n" 0).2.1 rfl,
   (expectedSeq_increment_characterized LIVE_LINK_CONFIG ⟨1, none, none, none⟩ 0 ⟨2, 50, []⟩
      [] [] "p" "n" 0).2.2 (by decide)⟩

/-- Counterexample for C3 as stated: a telemetry message with the correct
`seq` that is rejected by the time-delta check ("Invalid time delta")
nevertheless advances `expectedSeq` from 1 to 2, so a rejected message can
change `expectedSeq`. -/
theorem expectedSeq_changes_on_rejected_message :
    (processTelemetry LIVE_LINK_CONFIG ⟨1, some 1000, some 0, none⟩ 1000 ⟨1, 0, []⟩).2 =
        some "Invalid time delta" ∧
      (processTelemetry LIVE_LINK_CONFIG ⟨1, some 1000, some 0, none⟩ 1000
          ⟨1, 0, []⟩).1.expectedSeq = 2 := by
  constructor <;> norm_num [processTelemetry, rateCheck]

/-- C2 (amended): a telemetry message rejected at the sequence, time-delta
or speedhack step leaves `lastAt`, `lastPct` and `lastCoord` unchanged;
but once the progress-rate step has passed, `lastAt`/`lastPct` are written
to `(now, current_pct)` even when the message is subsequently killed by
the batch-size or per-frame checks; a batch-size kill leaves `lastCoord`
unchanged (and within the frame loop only frames preceding the failing
frame update it). -/
theorem baseline_writes_characterized
    (cfg : LiveLinkConfig) (st : TelemetryState) (now : ℚ) (msg : TelemetryMessage) :
    ((processTelemetry cfg st now msg).2 = some "Sequence mismatch" ∨
      (processTelemetry cfg st now msg).2 = some "Invalid time delta" ∨
      (processTelemetry cfg st now msg).2 = some "Speedhack (pct jump)" →
      (processTelemetry cfg st now msg).1.lastAt = st.lastAt ∧
      (processTelemetry cfg st now msg).1.lastPct = st.lastPct ∧
      (processTelemetry cfg st now msg).1.lastCoord = st.lastCoord) ∧
    (∀ r, (processTelemetry cfg st now msg).2 = some r →
      r ≠ "Sequence mismatch" → r ≠ "Invalid time delta" → r ≠ "Speedhack (pct jump)" →
      (processTelemetry cfg st now msg).1.lastAt = some now ∧
      (processTelemetry cfg st now msg).1.lastPct = some msg.current_pct) ∧
    ((processTelemetry cfg st now msg).2 = some "Too many frames" →
      (processTelemetry cfg st now msg).1.lastCoord = st.lastCoord) := by
  by_cases hseq : msg.seq ≠ st.expectedSeq
  · have hP : processTelemetry cfg st now msg = (st, some "Sequence mismatch") := by
      unfold processTelemetry
      rw [if_pos hseq]
    rw [hP]
    refine ⟨fun _ => ⟨rfl, rfl, rfl⟩, ?_, ?_⟩
    · intro r hr hne1 _ _
      exact absurd (by simpa using hr.symm) hne1
    · intro h
      simp at h
  · unfold processTelemetry
    rw [if_neg hseq]
    cases hA : st.lastAt with
    | none =>
      dsimp only
      refine ⟨?_, ?_, ?_⟩
      · intro hdisj
        rcases hdisj with h | h | h <;>
          rcases afterRateCheck_kill_mem cfg _ now msg _ h with h' | h' | h' | h' <;>
            simp at h'
      · intro r hr h1 h2 h3
        exact ⟨afterRateCheck_lastAt cfg _ now msg, afterRateCheck_lastPct cfg _ now msg⟩
      · intro h
        rw [afterRateCheck_tooMany_lastCoord cfg _ now msg h]
    | some a =>
      cases hPc : st.lastPct with
      | none =>
        dsimp only
        refine ⟨?_, ?_, ?_⟩
        · intro hdisj
          rcases hdisj with h | h | h <;>
            rcases afterRateCheck_kill_mem cfg _ now msg _ h with h' | h' | h' | h' <;>
              simp at h'
        · intro r hr h1 h2 h3
          exact ⟨afterRateCheck_lastAt cfg _ now msg, afterRateCheck_lastPct cfg _ now msg⟩
        · intro h
          rw [afterRateCheck_tooMany_lastCoord cfg _ now msg h]
      | some p =>
        dsimp only
        cases hrc : rateCheck cfg a p now msg.current_pct with
        | none =>
          dsimp only
          refine ⟨?_, ?_, ?_⟩
          · intro hdisj
            rcases hdisj with h | h | h <;>
              rcases afterRateCheck_kill_mem cfg _ now msg _ h with h' | h' | h' | h' <;>
                simp at h'
          · intro r hr h1 h2 h3
            exact ⟨afterRateCheck_lastAt cfg _ now msg, afterRateCheck_lastPct cfg _ now msg⟩
          · intro h
            rw [afterRateCheck_tooMany_lastCoord cfg _ now msg h]
        | some reason =>
          dsimp only
          refine ⟨?_, ?_, ?_⟩
          · intro _
            exact ⟨rfl, rfl, rfl⟩
          · intro r hr h1 h2 h3
            have hrr : reason = r := by simpa using hr
            rcases rateCheck_kill_mem cfg a p now msg.current_pct reason hrc with h' | h'
            · exact absurd (hrr ▸ h') (by exact fun hh => h2 hh)
            · exact absurd (hrr ▸ h') (by exact fun hh => h3 hh)
          · intro h
            have : reason = "Too many frames" := by simpa using h
            rcases rateCheck_kill_mem cfg a p now msg.current_pct reason hrc with h' | h' <;>
              simp [this] at h'

/-- Counterexample for C2 as stated: the first telemetry message (no prior
baselines) carrying a frame with non-numeric coordinates is killed with
"Invalid coordinates", yet `lastAt` and `lastPct` advance from `none` to
`some 7`/`some 0` — a rejected message does advance those baselines. -/
theorem killed_message_advances_pct_baseline :
    processTelemetry LIVE_LINK_CONFIG ⟨1, none, none, none⟩ 7
        ⟨1, 0, [Json.obj [("x", Json.str "a"), ("y", Json.str "b")]]⟩ =
      (⟨2, some 7, some 0, none⟩, some "Invalid coordinates") := by
  decide

/-- Witness for C2's amended theorem: at the same concrete input, the
kill happens after the rate step, so `lastAt`/`lastPct` are written. -/
theorem baseline_writes_characterized_witness :
    (processTelemetry LIVE_LINK_CONFIG ⟨1, none, none, none⟩ 7
        ⟨1, 0, [Json.obj [("x", Json.str "a"), ("y", Json.str "b")]]⟩).1.lastAt = some 7 ∧
    (processTelemetry LIVE_LINK_CONFIG ⟨1, none, none, none⟩ 7
        ⟨1, 0, [Json.obj [("x", Json.str "a"), ("y", Json.str "b")]]⟩).1.lastPct =
      some (⟨1, 0, [Json.obj [("x", Json.str "a"), ("y", Json.str "b")]]⟩ :
        TelemetryMessage).current_pct :=
  (baseline_writes_characterized LIVE_LINK_CONFIG ⟨1, none, none, none⟩ 7
      ⟨1, 0, [Json.obj [("x", Json.str "a"), ("y", Json.str "b")]]⟩).2.1
    "Invalid coordinates" (by decide) (by decide) (by decide) (by decide)

/-! ### Progress-rate boundary (C6) -/

lemma rateCheck_eq_of_pos_dt (cfg : LiveLinkConfig) (a p now pct : ℚ)
    (hdt : 0 < (now - a) / 1000)
    (hb : 0 ≤ cfg.maxPctBurst) (hr : 0 ≤ cfg.maxPctPerSecond) :
    rateCheck cfg a p now pct =
      if pct - p > cfg.maxPctBurst + cfg.maxPctPerSecond * ((now - a) / 1000) then
        some "Speedhack (pct jump)"
      else none := by
  unfold rateCheck
  rw [if_neg (not_le.mpr hdt)]
  by_cases hδ : pct - p ≥ 0
  · rw [if_pos hδ]
  · rw [if_neg hδ]
    have hbound : 0 ≤ cfg.maxPctBurst + cfg.maxPctPerSecond * ((now - a) / 1000) :=
      add_nonneg hb (mul_nonneg hr hdt.le)
    rw [if_neg (not_lt.mpr ((not_le.mp hδ).le.trans hbound))]

/-- C6: for a telemetry message with the expected `seq`, existing
time/percent baselines and a positive elapsed time, the speedhack kill
fires exactly when the percent delta exceeds
`maxPctBurst + maxPctPerSecond · dt` (a non-positive delta never fires it,
and the boundary value is accepted), and the time-delta kill cannot
fire. -/
theorem progress_rate_check_boundary
    (cfg : LiveLinkConfig) (st : TelemetryState) (now : ℚ) (msg : TelemetryMessage)
    (a p : ℚ)
    (hseq : msg.seq = st.expectedSeq)
    (hA : st.lastAt = some a) (hPc : st.lastPct = some p)
    (hdt : 0 < (now - a) / 1000)
    (hb : 0 ≤ cfg.maxPctBurst) (hr : 0 ≤ cfg.maxPctPerSecond) :
    ((processTelemetry cfg st now msg).2 = some "Speedhack (pct jump)" ↔
      msg.current_pct - p > cfg.maxPctBurst + cfg.maxPctPerSecond * ((now - a) / 1000)) ∧
    (processTelemetry cfg st now msg).2 ≠ some "Invalid time delta" := by
  unfold processTelemetry
  rw [if_neg (not_not_intro hseq), hA, hPc]
  dsimp only
  rw [rateCheck_eq_of_pos_dt cfg a p now msg.current_pct hdt hb hr]
  by_cases hex : msg.current_pct - p > cfg.maxPctBurst + cfg.maxPctPerSecond * ((now - a) / 1000)
  · rw [if_pos hex]
    dsimp only
    exact ⟨by simp [hex], by simp⟩
  · rw [if_neg hex]
    dsimp only
    refine ⟨⟨?_, fun h => absurd h hex⟩, ?_⟩
    · intro h
      rcases afterRateCheck_kill_mem cfg _ now msg _ h with h' | h' | h' | h' <;> simp at h'
    · intro h
      rcases afterRateCheck_kill_mem cfg _ now msg _ h with h' | h' | h' | h' <;> simp at h'

/-- Witness for C6 at the spec's numbers (`burst = 5`, `rate = 20/s`,
`dt = 1 s`): a percent jump of exactly 25 is accepted; 26 is killed. -/
theorem progress_rate_check_boundary_witness :
    ¬ ((processTelemetry LIVE_LINK_CONFIG ⟨1, some 0, some 0, none⟩ 1000 ⟨1, 25, []⟩).2 =
        some "Speedhack (pct jump)") ∧
    (processTelemetry LIVE_LINK_CONFIG ⟨1, some 0, some 0, none⟩ 1000 ⟨1, 26, []⟩).2 =
      some "Speedhack (pct jump)" :=
  ⟨fun h =>
    absurd ((progress_rate_check_boundary LIVE_LINK_CONFIG ⟨1, some 0, some 0, none⟩ 1000
        ⟨1, 25, []⟩ 0 0 rfl rfl rfl (by norm_num) (by norm_num [LIVE_LINK_CONFIG]) (by norm_num [LIVE_LINK_CONFIG])).1.mp h)
      (by norm_num [LIVE_LINK_CONFIG]),
   (progress_rate_check_boundary LIVE_LINK_CONFIG ⟨1, some 0, some 0, none⟩ 1000
        ⟨1, 26, []⟩ 0 0 rfl rfl rfl (by norm_num) (by norm_num [LIVE_LINK_CONFIG]) (by norm_num [LIVE_LINK_CONFIG])).1.mpr
      (by norm_num [LIVE_LINK_CONFIG])⟩

/-! ### Per-frame plausibility (C7, C9) -/

lemma stepFrame_killed_coord (cfg : LiveLinkConfig) (c : Option (ℚ × ℚ)) (frame : Json) :
    ∀ (c' : Option (ℚ × ℚ)) (r : String),
      stepFrame cfg c frame = (c', some r) → c' = c := by
  intro c' r h
  unfold stepFrame at h
  repeat' split at h
  all_goals simp_all

lemma processFrames_cons (cfg : LiveLinkConfig) (c : Option (ℚ × ℚ)) (f : Json)
    (rest : List Json) :
    processFrames cfg c (f :: rest) =
      if (stepFrame cfg c f).2 = none then processFrames cfg (stepFrame cfg c f).1 rest
      else stepFrame cfg c f := by
  rw [processFrames]
  cases hsf : stepFrame cfg c f with
  | mk c' kill =>
    cases kill with
    | none => simp
    | some r => simp

/-- C7: a frame with both coordinates present as (finite) numbers passes
the plausibility checks and becomes the new baseline exactly when each
axis is within `maxAbsCoord` and, when a baseline exists, each per-axis
delta is within `maxCoordDelta` (the bounds themselves accepted); a
failing frame leaves the baseline unchanged, and within a batch the next
frame is checked against the previous passing frame's coordinates. -/
theorem frame_plausibility_characterized
    (cfg : LiveLinkConfig) (coord : Option (ℚ × ℚ)) (fs : List (String × Json))
    (x y : ℚ) (rest : List Json)
    (hx : (Json.obj fs).getField "x" = some (Json.num x))
    (hy : (Json.obj fs).getField "y" = some (Json.num y)) :
    (stepFrame cfg coord (Json.obj fs) = (some (x, y), none) ↔
      |x| ≤ cfg.maxAbsCoord ∧ |y| ≤ cfg.maxAbsCoord ∧
        ∀ lc, coord = some lc → |x - lc.1| ≤ cfg.maxCoordDelta ∧ |y - lc.2| ≤ cfg.maxCoordDelta) ∧
    ((stepFrame cfg coord (Json.obj fs)).2 ≠ none →
      (stepFrame cfg coord (Json.obj fs)).1 = coord) ∧
    processFrames cfg coord (Json.obj fs :: rest) =
      (if (stepFrame cfg coord (Json.obj fs)).2 = none then
        processFrames cfg (stepFrame cfg coord (Json.obj fs)).1 rest
      else stepFrame cfg coord (Json.obj fs)) := by
  refine ⟨?_, ?_, processFrames_cons cfg coord _ rest⟩
  case refine_2 =>
    intro h2
    cases hsf : stepFrame cfg coord (Json.obj fs) with
    | mk c' k =>
      rw [hsf] at h2
      cases k with
      | none => exact absurd rfl h2
      | some r =>
        exact stepFrame_killed_coord cfg coord _ c' r hsf
  unfold stepFrame
  rw [if_neg (by simp [Json.truthy, Json.typeofObject]), hx, hy]
  dsimp only
  by_cases habs : |x| > cfg.maxAbsCoord ∨ |y| > cfg.maxAbsCoord
  · rw [if_pos habs]
    constructor
    · intro h
      exact absurd (congrArg Prod.snd h) (by simp)
    · rintro ⟨h1, h2, -⟩
      rcases habs with h | h
      · exact absurd h1 (not_le.mpr h)
      · exact absurd h2 (not_le.mpr h)
  · push_neg at habs
    rw [if_neg (by push_neg; exact habs)]
    cases coord with
    | none =>
      dsimp only
      constructor
      · intro _
        exact ⟨habs.1, habs.2, fun lc hlc => Option.noConfusion hlc⟩
      · intro _
        rfl
    | some lc =>
      dsimp only
      by_cases hd : |x - lc.1| > cfg.maxCoordDelta ∨ |y - lc.2| > cfg.maxCoordDelta
      · rw [if_pos hd]
        constructor
        · intro h
          exact absurd (congrArg Prod.snd h) (by simp)
        · rintro ⟨-, -, hdel⟩
          obtain ⟨hdx, hdy⟩ := hdel lc rfl
          rcases hd with h | h
          · exact absurd hdx (not_le.mpr h)
          · exact absurd hdy (not_le.mpr h)
      · push_neg at hd
        rw [if_neg (by push_neg; exact hd)]
        constructor
        · intro _
          refine ⟨habs.1, habs.2, fun lc' hlc' => ?_⟩
          obtain rfl : lc = lc' := Option.some.inj hlc'
          exact ⟨hd.1, hd.2⟩
        · intro _
          rfl

/-- Witness for C7 at the spec's numbers: from baseline `(0,0)`, a frame
at `(20000, 0)` (delta exactly at the bound) is accepted and becomes the
new baseline. -/
theorem frame_plausibility_characterized_witness :
    stepFrame LIVE_LINK_CONFIG (some (0, 0))
        (Json.obj [("x", Json.num 20000), ("y", Json.num 0)]) = (some (20000, 0), none) :=
  (frame_plausibility_characterized LIVE_LINK_CONFIG (some (0, 0))
      [("x", Json.num 20000), ("y", Json.num 0)] 20000 0 [] rfl rfl).1.mpr
    ⟨by norm_num [LIVE_LINK_CONFIG], by norm_num [LIVE_LINK_CONFIG],
     by
      rintro lc hlc
      rw [← Option.some.inj hlc]
      norm_num [LIVE_LINK_CONFIG]⟩

/-- C9: a frame value that is not an object (null, boolean, number or
string) is skipped exactly like a frame missing a coordinate — no kill, no
coordinate checks, no baseline update — while still counting toward the
batch-size limit. -/
theorem non_object_frame_skipped
    (cfg : LiveLinkConfig) (coord : Option (ℚ × ℚ)) (v : Json) (rest : List Json)
    (st : TelemetryState) (now : ℚ) (n : ℕ) (q : ℚ)
    (hv : v.typeofObject = false ∨ v = Json.null) :
    stepFrame cfg coord v = (coord, none) ∧
    processFrames cfg coord (v :: rest) = processFrames cfg coord rest ∧
    ((afterRateCheck cfg st now ⟨n, q, v :: rest⟩).2 = some "Too many frames" ↔
      ((rest.length + 1 : ℚ) > cfg.maxFramesPerChunk)) := by
  have hskip : stepFrame cfg coord v = (coord, none) := by
    unfold stepFrame
    rcases hv with hv | hv
    · rw [if_pos (Or.inr (by simp [hv]))]
    · subst hv
      rw [if_pos (Or.inl (by simp [Json.truthy]))]
  refine ⟨hskip, ?_, ?_⟩
  · rw [processFrames_cons, hskip]
    simp
  · unfold afterRateCheck
    have hcast : (((v :: rest).length : ℕ) : ℚ) = (rest.length : ℚ) + 1 := by
      push_cast [List.length_cons]
      ring
    by_cases hlen : (((v :: rest).length : ℕ) : ℚ) > cfg.maxFramesPerChunk
    · rw [if_pos hlen]
      constructor
      · intro _
        rw [← hcast]
        exact hlen
      · intro _
        rfl
    · rw [if_neg hlen]
      constructor
      · intro h
        rcases processFrames_kill_mem cfg _ _ _ h with h' | h' | h' <;> simp at h'
      · intro h
        exact absurd (by rw [hcast]; exact h) hlen

/-- Witness for C9: a string frame between two coordinate frames is
skipped and counted. -/
theorem non_object_frame_skipped_witness :
    stepFrame LIVE_LINK_CONFIG (some (1, 2)) (Json.str "hi") = (some (1, 2), none) ∧
    processFrames LIVE_LINK_CONFIG (some (1, 2)) (Json.str "hi" :: []) =
      processFrames LIVE_LINK_CONFIG (some (1, 2)) [] ∧
    ((afterRateCheck LIVE_LINK_CONFIG ⟨1, none, none, none⟩ 0
        ⟨1, 0, Json.str "hi" :: []⟩).2 = some "Too many frames" ↔
      ((([] : List Json).length + 1 : ℚ) > LIVE_LINK_CONFIG.maxFramesPerChunk)) :=
  non_object_frame_skipped LIVE_LINK_CONFIG (some (1, 2)) (Json.str "hi") []
    ⟨1, none, none, none⟩ 0 1 0 (Or.inl rfl)

/-! ### Envelope parsing (C4) -/

lemma reqNonemptyStr_isSome (fields : List (String × Json)) (k : String) :
    (reqNonemptyStr fields k).isSome = true ↔
      ∃ s, fields.lookup k = some (Json.str s) ∧ s ≠ "" := by
  unfold reqNonemptyStr
  cases h : fields.lookup k with
  | none => simp
  | some v =>
    cases v with
    | str s => by_cases hs : s = "" <;> simp [hs]
    | null => simp
    | bool b => simp
    | num q => simp
    | arr xs => simp
    | obj fs => simp

lemma optNonemptyStr_isSome (fields : List (String × Json)) (k : String) :
    (optNonemptyStr fields k).isSome = true ↔
      (fields.lookup k = none ∨ ∃ s, fields.lookup k = some (Json.str s) ∧ s ≠ "") := by
  unfold optNonemptyStr
  cases h : fields.lookup k with
  | none => simp
  | some v =>
    cases v with
    | str s => by_cases hs : s = "" <;> simp [hs]
    | null => simp
    | bool b => simp
    | num q => simp
    | arr xs => simp
    | obj fs => simp

lemma optStr_isSome (fields : List (String × Json)) (k : String) :
    (optStr fields k).isSome = true ↔
      (fields.lookup k = none ∨ ∃ s, fields.lookup k = some (Json.str s)) := by
  unfold optStr
  cases h : fields.lookup k with
  | none => simp
  | some v =>
    cases v with
    | str s => simp
    | null => simp
    | bool b => simp
    | num q => simp
    | arr xs => simp
    | obj fs => simp

lemma parseAuthEnvelope_isSome_obj (fields : List (String × Json)) :
    (parseAuthEnvelope (Json.obj fields)).isSome =
      ((reqNonemptyStr fields "iv").isSome && (optNonemptyStr fields "data").isSome &&
       (optNonemptyStr fields "ciphertext").isSome && (optNonemptyStr fields "tag").isSome &&
       (optStr fields "alg").isSome) := by
  unfold parseAuthEnvelope
  dsimp only
  cases reqNonemptyStr fields "iv" <;> cases optNonemptyStr fields "data" <;>
    cases optNonemptyStr fields "ciphertext" <;> cases optNonemptyStr fields "tag" <;>
      cases optStr fields "alg" <;> rfl

/-- C4 (amended): `parseAuthEnvelope` succeeds exactly when the input is
an object whose `iv` is a non-empty string, whose `data`, `ciphertext`
and `tag` fields, when present, are non-empty strings, and whose `alg`,
when present, is a string (extra fields tolerated).  In particular an
object carrying both ciphertext field names, or neither, passes the
parse step; a missing ciphertext is only detected later, inside
`decryptAuthEnvelope`. -/
theorem parseAuthEnvelope_characterized (j : Json) :
    (parseAuthEnvelope j).isSome = true ↔
      ∃ fields, j = Json.obj fields ∧
        (∃ s, fields.lookup "iv" = some (Json.str s) ∧ s ≠ "") ∧
        (fields.lookup "data" = none ∨
          ∃ s, fields.lookup "data" = some (Json.str s) ∧ s ≠ "") ∧
        (fields.lookup "ciphertext" = none ∨
          ∃ s, fields.lookup "ciphertext" = some (Json.str s) ∧ s ≠ "") ∧
        (fields.lookup "tag" = none ∨
          ∃ s, fields.lookup "tag" = some (Json.str s) ∧ s ≠ "") ∧
        (fields.lookup "alg" = none ∨ ∃ s, fields.lookup "alg" = some (Json.str s)) := by
  cases j with
  | obj fields =>
    rw [parseAuthEnvelope_isSome_obj]
    simp only [Bool.and_eq_true, reqNonemptyStr_isSome, optNonemptyStr_isSome, optStr_isSome]
    constructor
    · rintro ⟨⟨⟨⟨hiv, hdata⟩, hct⟩, htag⟩, halg⟩
      exact ⟨fields, rfl, hiv, hdata, hct, htag, halg⟩
    · rintro ⟨fields', heq, hiv, hdata, hct, htag, halg⟩
      obtain rfl : fields = fields' := Json.obj.inj heq
      exact ⟨⟨⟨⟨hiv, hdata⟩, hct⟩, htag⟩, halg⟩
  | null => simp [parseAuthEnvelope]
  | bool b => simp [parseAuthEnvelope]
  | num q => simp [parseAuthEnvelope]
  | str s => simp [parseAuthEnvelope]
  | arr xs => simp [parseAuthEnvelope]

/-- Counterexample for C4 as stated: an object with a valid `iv` and
*neither* ciphertext field parses successfully (the claim says it must
fail at the parse step), an object with *both* ciphertext fields parses
successfully too, and the missing-ciphertext case only fails later, in
`decryptAuthEnvelope`, with the distinct missing-ciphertext error. -/
theorem parseAuthEnvelope_accepts_zero_or_two_ciphertext_fields :
    (parseAuthEnvelope (Json.obj [("iv", Json.str "abc")]) =
      some { iv := "abc", data := none, ciphertext := none, tag := none, alg := none }) ∧
    (parseAuthEnvelope (Json.obj [("iv", Json.str "abc"), ("data", Json.str "zz"),
        ("ciphertext", Json.str "ww")]) =
      some { iv := "abc", data := some "zz", ciphertext := some "ww", tag := none,
             alg := none }) ∧
    (decryptAuthEnvelope ⟨fun _ => [], fun _ => []⟩
        ⟨fun _ _ _ _ => none, fun _ _ _ => none, fun _ => ""⟩
        { iv := "abc", data := none, ciphertext := none, tag := none, alg := none }
        (List.replicate 32 0) =
      Except.error DecryptError.missingCiphertext) := by
  refine ⟨rfl, rfl, rfl⟩

/-! ### Keyring builder (C8) -/

lemma lookup_eq_none_of_not_mem {α : Type} (l : List (String × α)) (v : String)
    (h : v ∉ l.map Prod.fst) : l.lookup v = none := by
  induction l with
  | nil => rfl
  | cons p rest ih =>
    simp only [List.map_cons, List.mem_cons, not_or] at h
    simp [List.lookup, beq_eq_false_iff_ne.mpr h.1, ih h.2]

lemma lookup_mapSet {α : Type} (m : List (String × α)) (k : String) (v : α) (q : String) :
    (mapSet m k v).lookup q = if q = k then some v else m.lookup q := by
  induction m with
  | nil =>
    by_cases h : q = k
    · simp [mapSet, List.lookup, h]
    · simp [mapSet, List.lookup, h, beq_eq_false_iff_ne.mpr h]
  | cons p rest ih =>
    obtain ⟨pk, pv⟩ := p
    by_cases h1 : pk = k
    · subst h1
      rw [mapSet, if_pos rfl]
      by_cases h : q = pk
      · simp [List.lookup, h]
      · simp [List.lookup, beq_eq_false_iff_ne.mpr h, h]
    · rw [mapSet, if_neg h1]
      by_cases h : q = pk
      · subst h
        rw [if_neg (fun hqk => h1 hqk)]
        simp [List.lookup]
      · simp [List.lookup, beq_eq_false_iff_ne.mpr h, ih]

lemma mapSet_keys {α : Type} (m : List (String × α)) (k : String) (v : α) :
    (mapSet m k v).map Prod.fst =
      if k ∈ m.map Prod.fst then m.map Prod.fst else m.map Prod.fst ++ [k] := by
  induction m with
  | nil => simp [mapSet]
  | cons p rest ih =>
    obtain ⟨pk, pv⟩ := p
    by_cases h1 : pk = k
    · subst h1
      rw [mapSet, if_pos rfl]
      simp
    · rw [mapSet, if_neg h1]
      by_cases h2 : k ∈ rest.map Prod.fst
      · simp only [List.map_cons, List.mem_cons]
        rw [if_pos (Or.inr h2)]
        simp [ih, h2]
      · simp only [List.map_cons, List.mem_cons]
        rw [if_neg (by push_neg; exact ⟨fun hk => h1 hk.symm, h2⟩)]
        simp [ih, h2]

lemma mapSet_keys_nodup {α : Type} (m : List (String × α)) (k : String) (v : α)
    (h : (m.map Prod.fst).Nodup) : ((mapSet m k v).map Prod.fst).Nodup := by
  rw [mapSet_keys]
  by_cases hk : k ∈ m.map Prod.fst
  · rw [if_pos hk]
    exact h
  · rw [if_neg hk]
    simp [List.nodup_append, h, hk]

lemma mergeHashKeys_cons (staticKeys : List (String × String)) (p : String × String)
    (envKeys : List (String × String)) :
    mergeHashKeys staticKeys (p :: envKeys) =
      mergeHashKeys (mapSet staticKeys p.1 p.2) envKeys := rfl

lemma mergeHashKeys_keys_nodup (staticKeys envKeys : List (String × String))
    (h : (staticKeys.map Prod.fst).Nodup) :
    ((mergeHashKeys staticKeys envKeys).map Prod.fst).Nodup := by
  induction envKeys generalizing staticKeys with
  | nil => exact h
  | cons p rest ih =>
    rw [mergeHashKeys_cons]
    exact ih _ (mapSet_keys_nodup staticKeys p.1 p.2 h)

lemma mergeHashKeys_lookup (staticKeys envKeys : List (String × String))
    (henv : (envKeys.map Prod.fst).Nodup) (v : String) :
    (mergeHashKeys staticKeys envKeys).lookup v =
      (envKeys.lookup v).orElse fun _ => staticKeys.lookup v := by
  induction envKeys generalizing staticKeys with
  | nil => rfl
  | cons p rest ih =>
    obtain ⟨pk, pv⟩ := p
    simp only [List.map_cons, List.nodup_cons] at henv
    rw [mergeHashKeys_cons, ih _ henv.2]
    by_cases hv : v = pk
    · subst hv
      rw [lookup_eq_none_of_not_mem rest v henv.1, lookup_mapSet, if_pos rfl]
      simp [List.lookup]
    · rw [lookup_mapSet, if_neg hv]
      simp [List.lookup, beq_eq_false_iff_ne.mpr hv]

lemma isHexSha256_data_length (s : String) (h : isHexSha256 s = true) : s.data.length = 64 := by
  unfold isHexSha256 at h
  simp only [Bool.and_eq_true, decide_eq_true_eq] at h
  exact h.1

lemma hexDecode_length : ∀ cs : List Char, (hexDecode cs).length = cs.length / 2
  | [] => by simp [hexDecode]
  | [_] => by simp [hexDecode]
  | c1 :: c2 :: rest => by
    rw [hexDecode, List.length_cons, List.length_cons, List.length_cons,
      hexDecode_length rest]
    omega

lemma parseKey_length (dec : Base64Decoders) (value : String) (k : List ℕ)
    (h : parseKey dec value = some k) : k.length = 32 := by
  unfold parseKey at h
  split_ifs at h with h1 h2
  · obtain rfl : hexDecode value.data = k := Option.some.inj h
    rw [hexDecode_length, isHexSha256_data_length value h1]
  · obtain rfl : decodeBase64Like dec value = k := Option.some.inj h
    simpa using h2

lemma keyringEntryOf_version (dec : Base64Decoders) (p : String × String)
    (e : LiveLinkKeyringEntry) (h : keyringEntryOf dec p = some e) :
    e.version = p.1 ∧ parseKey dec p.2 = some e.key := by
  unfold keyringEntryOf at h
  cases hp : parseKey dec p.2 with
  | none => rw [hp] at h; exact Option.noConfusion h
  | some pk =>
    rw [hp] at h
    dsimp only at h
    split_ifs at h with h2
    obtain rfl : ({ version := p.1, key := pk } : LiveLinkKeyringEntry) = e :=
      Option.some.inj h
    exact ⟨rfl, rfl⟩

lemma keyringEntryOf_of_parseKey (dec : Base64Decoders) (p : String × String)
    (pk : List ℕ) (h : parseKey dec p.2 = some pk) :
    keyringEntryOf dec p = some { version := p.1, key := pk } := by
  unfold keyringEntryOf
  rw [h]
  dsimp only
  rw [if_neg (not_not_intro (parseKey_length dec p.2 pk h))]

lemma filterMap_keyringEntry_versions_sublist (dec : Base64Decoders) :
    ∀ m : List (String × String),
      ((m.filterMap (keyringEntryOf dec)).map LiveLinkKeyringEntry.version).Sublist
        (m.map Prod.fst) := by
  intro m
  induction m with
  | nil => simp
  | cons p rest ih =>
    cases h : keyringEntryOf dec p with
    | none =>
      rw [List.filterMap_cons_none h]
      exact ih.cons p.1
    | some e =>
      rw [List.filterMap_cons_some h, List.map_cons,
        (keyringEntryOf_version dec p e h).1, List.map_cons]
      exact ih.cons₂ p.1

lemma filterMap_keyringEntry_version_mem (dec : Base64Decoders) :
    ∀ m : List (String × String), ((m.map Prod.fst).Nodup) →
      ∀ v, (∃ e ∈ m.filterMap (keyringEntryOf dec), e.version = v) ↔
        (∃ k pk, m.lookup v = some k ∧ parseKey dec k = some pk) := by
  intro m
  induction m with
  | nil =>
    intro _ v
    simp
  | cons p rest ih =>
    intro hnd v
    obtain ⟨pk2, pval⟩ := p
    simp only [List.map_cons, List.nodup_cons] at hnd
    by_cases hv : v = pk2
    · subst hv
      cases hk : keyringEntryOf dec (v, pval) with
      | some e =>
        rw [List.filterMap_cons_some hk]
        obtain ⟨hever, hparse⟩ := keyringEntryOf_version dec (v, pval) e hk
        constructor
        · intro _
          exact ⟨pval, e.key, by simp [List.lookup], hparse⟩
        · intro _
          exact ⟨e, List.mem_cons_self e _, hever⟩
      | none =>
        rw [List.filterMap_cons_none hk]
        constructor
        · rintro ⟨e, he, hev⟩
          obtain ⟨q, hq, hqe⟩ := List.mem_filterMap.mp he
          have hv1 : e.version = q.1 := (keyringEntryOf_version dec q e hqe).1
          exact absurd (hev ▸ hv1 ▸ List.mem_map_of_mem Prod.fst hq) hnd.1
        · rintro ⟨k, pk, hlk, hparse⟩
          obtain rfl : pval = k := by simpa [List.lookup] using hlk
          exact absurd (keyringEntryOf_of_parseKey dec (v, pval) pk hparse)
            (by rw [hk]; exact fun hh => Option.noConfusion hh)
    · have hlk : List.lookup v ((pk2, pval) :: rest) = rest.lookup v := by
        simp [List.lookup, beq_eq_false_iff_ne.mpr hv]
      cases hk : keyringEntryOf dec (pk2, pval) with
      | some e =>
        rw [List.filterMap_cons_some hk, hlk]
        have hever : e.version = pk2 := (keyringEntryOf_version dec (pk2, pval) e hk).1
        constructor
        · rintro ⟨e', he', hev'⟩
          rcases List.mem_cons.mp he' with rfl | hmem
          · exact absurd (hev'.symm.trans hever) hv
          · exact (ih hnd.2 v).mp ⟨e', hmem, hev'⟩
        · intro hr
          obtain ⟨e', he', hev'⟩ := (ih hnd.2 v).mpr hr
          exact ⟨e', List.mem_cons_of_mem e he', hev'⟩
      | none =>
        rw [List.filterMap_cons_none hk, hlk]
        exact ih hnd.2 v

/-- C8: `buildKeyring` returns, in iteration order, the entries of the
static map merged with the environment map (an environment entry
replacing a static entry of the same version); every returned key is
exactly 32 bytes after decoding, and a version whose key fails to decode
to 32 bytes is omitted from the result instead of aborting the build. -/
theorem buildKeyring_characterized
    (dec : Base64Decoders) (staticKeys envKeys : List (String × String))
    (hstatic : (staticKeys.map Prod.fst).Nodup) (henv : (envKeys.map Prod.fst).Nodup) :
    (∀ e ∈ buildKeyring dec staticKeys envKeys, e.key.length = 32) ∧
    ((buildKeyring dec staticKeys envKeys).map LiveLinkKeyringEntry.version).Sublist
      ((mergeHashKeys staticKeys envKeys).map Prod.fst) ∧
    (∀ v, (mergeHashKeys staticKeys envKeys).lookup v =
      ((envKeys.lookup v).orElse fun _ => staticKeys.lookup v)) ∧
    (∀ v, (∃ e ∈ buildKeyring dec staticKeys envKeys, e.version = v) ↔
      (∃ k pk, (mergeHashKeys staticKeys envKeys).lookup v = some k ∧
        parseKey dec k = some pk)) := by
  refine ⟨?_, ?_, ?_, ?_⟩
  · intro e he
    rw [buildKeyring, List.mem_filterMap] at he
    obtain ⟨p, hp, hpe⟩ := he
    exact parseKey_length dec p.2 e.key (keyringEntryOf_version dec p e hpe).2
  · exact filterMap_keyringEntry_versions_sublist dec (mergeHashKeys staticKeys envKeys)
  · exact mergeHashKeys_lookup staticKeys envKeys henv
  · exact filterMap_keyringEntry_version_mem dec (mergeHashKeys staticKeys envKeys)
      (mergeHashKeys_keys_nodup staticKeys envKeys hstatic)

/-- Concrete decoders for the C8 witness: `"AAAA"` decodes to 32 bytes,
anything else to 2 bytes. -/
def witDecoders : Base64Decoders :=
  { base64 := fun s => if s = "AAAA" then List.replicate 32 5 else [1, 2]
    base64url := fun _ => [] }

def witStaticKeys : List (String × String) := [("v1", "ffff")]

def witEnvKeys : List (String × String) := [("v1", "AAAA"), ("v2", "short")]

/-- Witness for C8: with a static entry for `"v1"`, an environment
override for `"v1"` and an environment entry `"v2"` whose key decodes to
2 bytes, the override wins the merge lookup and `"v2"`'s membership in the
keyring is equivalent to its key parsing. -/
theorem buildKeyring_characterized_witness :
    ((mergeHashKeys witStaticKeys witEnvKeys).lookup "v1" =
      ((witEnvKeys.lookup "v1").orElse fun _ => witStaticKeys.lookup "v1")) ∧
    ((∃ e ∈ buildKeyring witDecoders witStaticKeys witEnvKeys, e.version = "v2") ↔
      (∃ k pk, (mergeHashKeys witStaticKeys witEnvKeys).lookup "v2" = some k ∧
        parseKey witDecoders k = some pk)) :=
  ⟨(buildKeyring_characterized witDecoders witStaticKeys witEnvKeys
      (by decide) (by decide)).2.2.1 "v1",
   (buildKeyring_characterized witDecoders witStaticKeys witEnvKeys
      (by decide) (by decide)).2.2.2 "v2"⟩

/-! ### Open/close lifecycle with an empty keyring (C10) -/

lemma lookup_mapDelete_self {α : Type} (m : List (String × α)) (k : String)
    (h : (m.map Prod.fst).Nodup) : (mapDelete m k).lookup k = none := by
  induction m with
  | nil => rfl
  | cons p rest ih =>
    obtain ⟨pk, pv⟩ := p
    simp only [List.map_cons, List.nodup_cons] at h
    by_cases hk : pk = k
    · subst hk
      rw [mapDelete, if_pos rfl]
      exact lookup_eq_none_of_not_mem rest pk h.1
    · rw [mapDelete, if_neg hk]
      simp only [List.lookup, beq_eq_false_iff_ne.mpr (fun he => hk he.symm)]
      exact ih h.2

/-- C10: on `open` the session is inserted into the store before the
empty-keyring check; with an empty keyring the connection is refused with
"Server misconfigured" and nothing (in particular no `auth_challenge`) is
sent, yet the refused connection's session exists in the store, and it is
the `close` handler that removes it. -/
theorem empty_keyring_refusal_keeps_session_until_close
    (keyring : List LiveLinkKeyringEntry) (store : SessionStore)
    (peerId nonce : String) (now : ℚ)
    (hnodup : (store.map Prod.fst).Nodup)
    (hkr : keyring = []) :
    (∃ s, (openHandler keyring store peerId nonce now).1.lookup peerId = some s ∧
      s.id = peerId ∧ s.auth.state = AuthStateTag.challenging ∧ s.auth.nonce = nonce ∧
      s.telemetry.expectedSeq = 1) ∧
    (openHandler keyring store peerId nonce now).2 = closeUnauthorized "Server misconfigured" ∧
    (∀ m : OutMsg, OutAction.send m ∉ (openHandler keyring store peerId nonce now).2) ∧
    (closeHandler (openHandler keyring store peerId nonce now).1 peerId).lookup peerId =
      none := by
  subst hkr
  have hopen : openHandler [] store peerId nonce now =
      (mapSet store peerId
        { id := peerId, createdAt := now
          auth := { state := AuthStateTag.challenging, nonce := nonce, version := none,
                    handshakeTimer := true }
          telemetry := { expectedSeq := 1, lastAt := none, lastPct := none,
                         lastCoord := none } },
       closeUnauthorized "Server misconfigured") := by
    unfold openHandler
    rfl
  rw [hopen]
  refine ⟨⟨_, lookup_mapSet_self store peerId _, rfl, rfl, rfl, rfl⟩, rfl, ?_, ?_⟩
  · intro m hm
    simp [closeUnauthorized] at hm
  · unfold closeHandler
    rw [lookup_mapSet_self]
    exact lookup_mapDelete_self _ peerId (mapSet_keys_nodup store peerId _ hnodup)

/-- Witness for C10 on an empty store. -/
theorem empty_keyring_refusal_keeps_session_until_close_witness :
    (∃ s, (openHandler [] [] "p" "n" 0).1.lookup "p" = some s ∧
      s.id = "p" ∧ s.auth.state = AuthStateTag.challenging ∧ s.auth.nonce = "n" ∧
      s.telemetry.expectedSeq = 1) ∧
    (openHandler [] [] "p" "n" 0).2 = closeUnauthorized "Server misconfigured" ∧
    (∀ m : OutMsg, OutAction.send m ∉ (openHandler [] [] "p" "n" 0).2) ∧
    (closeHandler (openHandler [] [] "p" "n" 0).1 "p").lookup "p" = none :=
  empty_keyring_refusal_keeps_session_until_close [] [] "p" "n" 0 (by simp) rfl

end LiveLink
